import Mathlib

/-!
# Verification of `decor/observe`

A shallow embedding of `src/observe.js` (the `decor` observation engine):
JavaScript values, the `is` (SameValue) polyfill, the recursive `diff`,
the property-interception machinery of `watchPojo`, the `ChangeCollector`,
and the `deliverAllByTimeout` drain loop, together with theorems checking
the natural-language specification against this embedding.

Modelling conventions:
* JS numbers are modelled as integers plus the two values the code
  distinguishes specially, `NaN` and `-0`.
* JS objects are modelled structurally (association lists of fields, in
  insertion/enumeration order).  Since the model has no aliasing, the
  reference equality used by `===` on objects is rendered as structural
  equality; this is observationally equivalent for the notification
  traces studied here.
* Functions/closures are not values of the model; listeners are
  represented by the inductive `Listener` type mirroring the two closure
  shapes appearing in the source (an externally registered raw listener,
  and the re-pathing wrapper synthesised for nested objects).
-/

/-- JS numbers restricted to what the source distinguishes: `NaN`, `-0`,
and ordinary (integer) numbers, `int 0` being `+0`. -/
inductive JSNum where
  | nan
  | negZero
  | int (n : Int)
deriving DecidableEq, Repr

/-- JS values: `undefined`, `null`, booleans, numbers, strings, and plain
objects given by their own enumerable fields in enumeration order. -/
inductive JSVal where
  | undef
  | null
  | bool (b : Bool)
  | num (a : JSNum)
  | str (s : String)
  | obj (fields : List (String × JSVal))
deriving Repr

namespace JSVal

mutual
/-- Structural Boolean equality on JS values (used to derive decidable
equality for the nested inductive). -/
def beq : JSVal → JSVal → Bool
  | .undef, .undef => true
  | .null, .null => true
  | .bool x, .bool y => x == y
  | .num x, .num y => decide (x = y)
  | .str x, .str y => x == y
  | .obj f, .obj g => beqFields f g
  | _, _ => false

/-- Structural Boolean equality on field lists. -/
def beqFields : List (String × JSVal) → List (String × JSVal) → Bool
  | [], [] => true
  | (p, v) :: rest, (q, w) :: rest2 => p == q && beq v w && beqFields rest rest2
  | _, _ => false
end

mutual
theorem beq_correct : ∀ (a b : JSVal), beq a b = true ↔ a = b
  | .undef, b => by cases b <;> simp [beq]
  | .null, b => by cases b <;> simp [beq]
  | .bool x, b => by cases b <;> simp [beq]
  | .num x, b => by cases b <;> simp [beq]
  | .str x, b => by cases b <;> simp [beq]
  | .obj f, b => by
      cases b <;> simp [beq]
      case obj g => exact beqFields_correct f g

theorem beqFields_correct : ∀ (f g : List (String × JSVal)),
    beqFields f g = true ↔ f = g
  | [], g => by cases g <;> simp [beqFields]
  | (p, v) :: rest, [] => by simp [beqFields]
  | (p, v) :: rest, (q, w) :: rest2 => by
      simp [beqFields, beq_correct v w, beqFields_correct rest rest2, Prod.ext_iff]
end

instance : DecidableEq JSVal := fun a b =>
  decidable_of_iff (beq a b = true) (beq_correct a b)

/-- JS `===` on the number type: `NaN` is unequal to everything
(itself included), `-0 === +0`, and ordinary numbers compare as usual. -/
def numEq : JSNum → JSNum → Bool
  | .nan, _ => false
  | _, .nan => false
  | .negZero, .negZero => true
  | .negZero, .int n => decide (n = 0)
  | .int n, .negZero => decide (n = 0)
  | .int m, .int n => decide (m = n)

/-- JS strict equality `===`: no coercion across types; numbers through
`numEq`; objects structurally (the model's rendering of reference
equality, see the module header). -/
def strictEq : JSVal → JSVal → Bool
  | .num a, .num b => numEq a b
  | l, r => decide (l = r)

/-- The value `+0`, i.e. the literal `0` appearing in the source. -/
def jsZero : JSVal := .num (.int 0)

/-- Whether a value is the number `-0`; `1 / x` for a JS zero `x` is
`+Infinity` exactly when `x` is `+0`, so `1/lhs === 1/rhs` for two zeros
holds exactly when the two zero signs agree. -/
def isNegZeroVal : JSVal → Bool
  | .num .negZero => true
  | _ => false

/-- The `Object.is()` polyfill from the source:
`lhs === rhs && (lhs !== 0 || 1 / lhs === 1 / rhs) || lhs !== lhs && rhs !== rhs`. -/
def is (lhs rhs : JSVal) : Bool :=
  (strictEq lhs rhs && (!strictEq lhs jsZero || isNegZeroVal lhs == isNegZeroVal rhs))
  || (!strictEq lhs lhs && !strictEq rhs rhs)

/-- SameValue comparison as the spec words it: strict identity, except
that positive and negative zero are distinct and `NaN` equals itself.
On this value space that is exactly structural equality. -/
def sameValue (lhs rhs : JSVal) : Bool := decide (lhs = rhs)

/-- JS truthiness. -/
def toBool : JSVal → Bool
  | .undef => false
  | .null => false
  | .bool b => b
  | .num .nan => false
  | .num .negZero => false
  | .num (.int n) => decide (n ≠ 0)
  | .str s => decide (s ≠ "")
  | .obj _ => true

/-- `typeof v === "object"` (true for `null` and for plain objects). -/
def isObjType : JSVal → Bool
  | .null => true
  | .obj _ => true
  | _ => false

/-- First-match association-list lookup (JS object field access order). -/
def lookupStr (p : String) : List (String × α) → Option α
  | [] => none
  | (q, v) :: rest => if q = p then some v else lookupStr p rest

/-- The non-throwing value of `prop in v`: the field test on objects.
The `in` operator itself throws a TypeError whenever its right operand
is a primitive; that behaviour is modelled by `jsInE`, and `diffE` below
is the error-aware embedding of `diff` — the total `diff` agrees with it
exactly on `diffSafe` inputs. -/
def jsIn (p : String) : JSVal → Bool
  | .obj fields => (lookupStr p fields).isSome
  | _ => false

/-- The JS `in` operator: the field test on objects, a TypeError on any
primitive right operand. -/
def jsInE (p : String) : JSVal → Except String Bool
  | .obj fields => .ok (lookupStr p fields).isSome
  | _ => .error "TypeError: cannot use the in operator on a primitive"

/-- `v[p]`: field access, `undefined` when absent or not an object. -/
def jsGet (v : JSVal) (p : String) : JSVal :=
  match v with
  | .obj fields => (lookupStr p fields).getD .undef
  | _ => .undef

end JSVal

open JSVal

/-- One `notify(prop, oldVal, newVal)` invocation produced by `diff`. -/
structure Notif where
  path : String
  oldVal : JSVal
  newVal : JSVal
deriving DecidableEq, Repr

mutual
/-- The recursive `diff(oldObj, newObj, notify, prefix)` of the source,
returning the list of `notify` invocations in order.  This is the total
(non-throwing) value: the `in` operator in the source's guard throws a
TypeError when `oldObj` is a truthy primitive, which the error-aware
`diffE` below models; `diff` agrees with `diffE` exactly on `diffSafe`
inputs. -/
def diff (oldObj newObj : JSVal) (pre : String) : List Notif :=
  match newObj with
  | .obj fields => diffFields oldObj fields pre
  | _ => []

/-- The `for (var prop in newObj)` loop body of `diff`, over the
remaining fields of the new object. -/
def diffFields (oldObj : JSVal) : List (String × JSVal) → String → List Notif
  | [], _ => []
  | (prop, v) :: rest, pre =>
    (if !toBool oldObj || !jsIn prop oldObj || !is (jsGet oldObj prop) v then
      if toBool v && isObjType v then
        diff (if toBool oldObj then jsGet oldObj prop else oldObj) v (pre ++ prop ++ ".")
      else
        [⟨pre ++ prop, if toBool oldObj then jsGet oldObj prop else .undef, v⟩]
    else []) ++ diffFields oldObj rest pre
end

mutual
/-- Modelled from the spec claim for the deep diff: one report per leaf
key present in the new object whose value differs by SameValue from the
corresponding key in the old object (keys absent from the old object are
reported as changes from `undefined`), recursing into object-valued new
values so that only leaf-level differences are reported.  Reports are
(path, old value) pairs. -/
def leafChanges (oldObj newObj : JSVal) (pre : String) : List (String × JSVal) :=
  match newObj with
  | .obj fields => leafChangesFields oldObj fields pre
  | _ => []

/-- Field-list worker for `leafChanges`. -/
def leafChangesFields (oldObj : JSVal) : List (String × JSVal) → String → List (String × JSVal)
  | [], _ => []
  | (prop, v) :: rest, pre =>
    (if !jsIn prop oldObj || !sameValue (jsGet oldObj prop) v then
      if toBool v && isObjType v then
        leafChanges (jsGet oldObj prop) v (pre ++ prop ++ ".")
      else
        [(pre ++ prop, jsGet oldObj prop)]
    else []) ++ leafChangesFields oldObj rest pre
end


namespace JSVal

/-- Objects are the only values `jsIn`/`jsGet` look inside. -/
def isObj : JSVal → Bool
  | .obj _ => true
  | _ => false

theorem jsIn_nonobj (p : String) (o : JSVal) (h : isObj o = false) :
    jsIn p o = false := by
  cases o <;> simp_all [isObj, jsIn]

theorem jsGet_nonobj (p : String) (o : JSVal) (h : isObj o = false) :
    jsGet o p = .undef := by
  cases o <;> simp_all [isObj, jsGet]

theorem toBool_false_nonobj (o : JSVal) (h : toBool o = false) :
    isObj o = false := by
  cases o <;> simp_all [isObj, toBool]

/-- The polyfilled `is` agrees with SameValue as the spec words it. -/
theorem is_eq_sameValue : ∀ (l r : JSVal), is l r = sameValue l r := by
  intro l r
  cases l <;> cases r <;>
    simp [is, sameValue, strictEq, jsZero, isNegZeroVal]
  rename_i a b
  cases a <;> cases b <;> simp [numEq, isNegZeroVal, decide_eq_decide]

end JSVal

/-- Projection of a `diff` notification to the (path, old value) pair
reported by the spec-level `leafChanges`. -/
def notifProj (n : Notif) : String × JSVal := (n.path, n.oldVal)

theorem leafChangesFields_nonobj :
    ∀ (f : List (String × JSVal)) (pre : String) (o : JSVal),
    isObj o = false → leafChangesFields o f pre = leafChangesFields .undef f pre
  | [], _, _, _ => by simp [leafChangesFields]
  | (p, v) :: rest, pre, o, h => by
    simp only [leafChangesFields]
    rw [jsIn_nonobj p o h, jsGet_nonobj p o h,
      leafChangesFields_nonobj rest pre o h,
      jsIn_nonobj p .undef rfl, jsGet_nonobj p .undef rfl]

theorem leafChanges_nonobj (o v : JSVal) (pre : String) (h : isObj o = false) :
    leafChanges o v pre = leafChanges .undef v pre := by
  cases v <;> simp [leafChanges]
  case obj f => exact leafChangesFields_nonobj f pre o h

/-- The guard of `diff` coincides with the spec-level difference test. -/
theorem diff_guard_eq (o v : JSVal) (p : String) :
    (!toBool o || !jsIn p o || !is (jsGet o p) v)
      = (!jsIn p o || !sameValue (jsGet o p) v) := by
  rw [is_eq_sameValue]
  by_cases h : toBool o = true
  · simp [h]
  · have h0 : toBool o = false := by simpa using h
    simp [h0, jsIn_nonobj p o (toBool_false_nonobj o h0)]

mutual
/-- Projected to (path, old value) pairs, `diff` computes exactly the
spec-level leaf changes. -/
theorem diff_models_leafChanges : ∀ (newObj oldObj : JSVal) (pre : String),
    (diff oldObj newObj pre).map notifProj = leafChanges oldObj newObj pre
  | .undef, o, pre => by simp [diff, leafChanges]
  | .null, o, pre => by simp [diff, leafChanges]
  | .bool b, o, pre => by simp [diff, leafChanges]
  | .num a, o, pre => by simp [diff, leafChanges]
  | .str s, o, pre => by simp [diff, leafChanges]
  | .obj f, o, pre => by
      simp only [diff, leafChanges]
      exact diffFields_models_leafChanges f o pre

/-- Field-list version of `diff_models_leafChanges`. -/
theorem diffFields_models_leafChanges :
    ∀ (fields : List (String × JSVal)) (oldObj : JSVal) (pre : String),
    (diffFields oldObj fields pre).map notifProj = leafChangesFields oldObj fields pre
  | [], o, pre => by simp [diffFields, leafChangesFields]
  | (p, v) :: rest, o, pre => by
      simp only [diffFields, leafChangesFields, List.map_append]
      rw [diffFields_models_leafChanges rest o pre, diff_guard_eq]
      congr 1
      by_cases hg : (!jsIn p o || !sameValue (jsGet o p) v) = true
      · rw [if_pos hg, if_pos hg]
        by_cases hv : (toBool v && isObjType v) = true
        · rw [if_pos hv, if_pos hv]
          rw [diff_models_leafChanges v _ (pre ++ p ++ ".")]
          by_cases ht : toBool o = true
          · rw [if_pos ht]
          · have h0 : toBool o = false := by simpa using ht
            rw [if_neg (by simp [h0]),
                leafChanges_nonobj o v _ (toBool_false_nonobj o h0),
                jsGet_nonobj p o (toBool_false_nonobj o h0)]
        · rw [if_neg hv, if_neg hv]
          simp only [List.map_cons, List.map_nil, notifProj]
          by_cases ht : toBool o = true
          · simp [ht]
          · have h0 : toBool o = false := by simpa using ht
            simp [h0, jsGet_nonobj p o (toBool_false_nonobj o h0)]
      · rw [if_neg hg, if_neg hg]
        simp
end

/-- The guard `!oldObj || !(prop in oldObj) || !is(oldObj[prop],
newObj[prop])` with the `in` operator's TypeError: the short-circuiting
`||` skips the `in` test when `oldObj` is falsy; a truthy primitive
`oldObj` throws.  (The `oldObj[prop]` access is only reached once the
`in` test succeeded, i.e. on objects.) -/
def diffGuardE (oldObj : JSVal) (prop : String) (v : JSVal) : Except String Bool :=
  if !toBool oldObj then .ok true
  else
    match jsInE prop oldObj with
    | .error e => .error e
    | .ok b => .ok (!b || !is (jsGet oldObj prop) v)

mutual
/-- Error-aware `diff`: exactly the source's `diff`, but propagating the
TypeError the `in` operator raises when the recursion reaches a truthy
primitive old value. -/
def diffE (oldObj newObj : JSVal) (pre : String) : Except String (List Notif) :=
  match newObj with
  | .obj fields => diffFieldsE oldObj fields pre
  | _ => .ok []

/-- Loop body of `diffE` over the remaining fields of the new object. -/
def diffFieldsE (oldObj : JSVal) :
    List (String × JSVal) → String → Except String (List Notif)
  | [], _ => .ok []
  | (prop, v) :: rest, pre =>
    match diffGuardE oldObj prop v with
    | .error e => .error e
    | .ok g =>
      match
        (if g then
          (if toBool v && isObjType v then
            diffE (if toBool oldObj then jsGet oldObj prop else oldObj) v
              (pre ++ prop ++ ".")
          else
            .ok [⟨pre ++ prop,
                  if toBool oldObj then jsGet oldObj prop else .undef, v⟩])
        else .ok []) with
      | .error e => .error e
      | .ok head =>
        match diffFieldsE oldObj rest pre with
        | .error e => .error e
        | .ok tail => .ok (head ++ tail)
end

mutual
/-- Inputs on which the recursion never pairs an object-valued new value
with a truthy non-object old value — exactly the inputs on which the
`in` operator never throws while diffing. -/
def diffSafe (oldObj newObj : JSVal) : Bool :=
  match newObj with
  | .obj fields => diffSafeFields oldObj fields
  | _ => true

/-- Field-list worker for `diffSafe`. -/
def diffSafeFields (oldObj : JSVal) : List (String × JSVal) → Bool
  | [] => true
  | (prop, v) :: rest =>
    (!toBool oldObj || isObj oldObj)
      && (if toBool v && isObjType v then
            diffSafe (if toBool oldObj then jsGet oldObj prop else oldObj) v
          else true)
      && diffSafeFields oldObj rest
end

theorem jsInE_obj (p : String) (o : JSVal) (h : isObj o = true) :
    jsInE p o = .ok (jsIn p o) := by
  cases o <;> simp_all [isObj, jsInE, jsIn]

theorem diffGuardE_safe (o v : JSVal) (prop : String)
    (h : (!toBool o || isObj o) = true) :
    diffGuardE o prop v
      = .ok (!toBool o || !jsIn prop o || !is (jsGet o prop) v) := by
  by_cases ht : toBool o = true
  · have hobj : isObj o = true := by
      rcases Bool.or_eq_true_iff.mp h with h1 | h1
      · rw [ht] at h1; exact absurd h1 (by simp)
      · exact h1
    simp [diffGuardE, ht, jsInE_obj prop o hobj]
  · have ht0 : toBool o = false := by
      cases hh : toBool o
      · rfl
      · exact absurd hh ht
    simp [diffGuardE, ht0, jsIn_nonobj prop o (toBool_false_nonobj o ht0)]

mutual
/-- On `diffSafe` inputs the error-aware `diffE` runs without error and
computes exactly the total `diff`. -/
theorem diffE_eq_diff : ∀ (newObj oldObj : JSVal) (pre : String),
    diffSafe oldObj newObj = true →
    diffE oldObj newObj pre = .ok (diff oldObj newObj pre)
  | .undef, _, _, _ => rfl
  | .null, _, _, _ => rfl
  | .bool _, _, _, _ => rfl
  | .num _, _, _, _ => rfl
  | .str _, _, _, _ => rfl
  | .obj f, o, pre, h => by
      simp only [diffE, diff]
      exact diffFieldsE_eq_diffFields f o pre (by simpa [diffSafe] using h)

/-- Field-list version of `diffE_eq_diff`. -/
theorem diffFieldsE_eq_diffFields : ∀ (fields : List (String × JSVal))
    (oldObj : JSVal) (pre : String),
    diffSafeFields oldObj fields = true →
    diffFieldsE oldObj fields pre = .ok (diffFields oldObj fields pre)
  | [], _, _, _ => rfl
  | (prop, v) :: rest, o, pre, h => by
      simp only [diffSafeFields, Bool.and_eq_true] at h
      obtain ⟨⟨h1, h2⟩, h3⟩ := h
      have htail := diffFieldsE_eq_diffFields rest o pre h3
      simp only [diffFieldsE, diffFields]
      rw [diffGuardE_safe o v prop h1, htail]
      dsimp only
      by_cases hg : (!toBool o || !jsIn prop o || !is (jsGet o prop) v) = true
      · by_cases hv : (toBool v && isObjType v) = true
        · have hv2 : toBool v = true ∧ isObjType v = true := by simpa using hv
          rw [if_pos hv2] at h2
          simp only [hg, hv, eq_self_iff_true, if_true,
            diffE_eq_diff v (if toBool o then jsGet o prop else o)
              (pre ++ prop ++ ".") h2]
        · have hvf : (toBool v && isObjType v) = false := by
            cases hh : (toBool v && isObjType v)
            · rfl
            · exact absurd hh hv
          simp only [hg, hvf, eq_self_iff_true, if_true, Bool.false_eq_true,
            if_false]
      · have hgf : (!toBool o || !jsIn prop o || !is (jsGet o prop) v) = false := by
          cases hh : (!toBool o || !jsIn prop o || !is (jsGet o prop) v)
          · rfl
          · exact absurd hh hg
        simp only [hgf, Bool.false_eq_true, if_false, List.nil_append]
end

/-- C4 as frozen is false on the code: with old snapshot `{a: 5}` and
new object `{a: {x: 1}}` the claim expects the leaf `"a.x"` (absent
from the old object) to be reported as a change from `undefined`, but
the program recurses into `diff(5, {x: 1}, notify, "a.")`, where
`"x" in 5` throws a TypeError, so no notification is delivered at all. -/
theorem C4_truthy_primitive_old_value_throws_counterexample :
    diffE (JSVal.obj [("a", .num (.int 5))])
        (JSVal.obj [("a", .obj [("x", .num (.int 1))])]) ""
      = .error "TypeError: cannot use the in operator on a primitive"
    ∧ leafChanges (JSVal.obj [("a", .num (.int 5))])
        (JSVal.obj [("a", .obj [("x", .num (.int 1))])]) ""
      = [("a.x", .undef)] :=
  ⟨rfl, by decide⟩

/-- C4 (amended): for every old snapshot, new object and path prefix on
which the recursion never pairs an object-valued new value with a truthy
non-object old value (`diffSafe`; on the excluded inputs the JS `in`
operator throws a TypeError and no notification is delivered), the deep
diff runs without error and invokes notify exactly once per leaf key
present in the new object whose value differs (by SameValue) from the
corresponding key of the old object — recursing into object-valued new
values so that only leaf-level differences are reported, reporting keys
absent from the old object as changes from undefined, never reporting an
unchanged leaf; in particular replacing `{b:1, c:2}` with
`{b:1, c:3, d:4}` under prefix `"a."` reports `"a.c"` (old value `2`)
and `"a.d"` (old value `undefined`) and does not report `"a.b"`. -/
theorem C4_diff_reports_exactly_changed_leaves_on_safe_inputs :
    (∀ (oldObj newObj : JSVal) (pre : String),
        diffSafe oldObj newObj = true →
        diffE oldObj newObj pre = .ok (diff oldObj newObj pre)
        ∧ (diff oldObj newObj pre).map notifProj = leafChanges oldObj newObj pre)
    ∧ diffE (JSVal.obj [("b", .num (.int 1)), ("c", .num (.int 2))])
        (JSVal.obj [("b", .num (.int 1)), ("c", .num (.int 3)), ("d", .num (.int 4))])
        "a."
      = .ok [⟨"a.c", .num (.int 2), .num (.int 3)⟩, ⟨"a.d", .undef, .num (.int 4)⟩] :=
  ⟨fun o n pre h => ⟨diffE_eq_diff n o pre h, diff_models_leafChanges n o pre⟩, rfl⟩

/-- C4 witness: the canonical replacement example satisfies `diffSafe`
and the amended theorem applies to it. -/
theorem C4_diff_reports_exactly_changed_leaves_on_safe_inputs_witness :
    diffSafe (JSVal.obj [("b", .num (.int 1)), ("c", .num (.int 2))])
        (JSVal.obj [("b", .num (.int 1)), ("c", .num (.int 3)), ("d", .num (.int 4))])
      = true
    ∧ (diffE (JSVal.obj [("b", .num (.int 1)), ("c", .num (.int 2))])
          (JSVal.obj [("b", .num (.int 1)), ("c", .num (.int 3)), ("d", .num (.int 4))])
          "a."
        = .ok (diff (JSVal.obj [("b", .num (.int 1)), ("c", .num (.int 2))])
            (JSVal.obj [("b", .num (.int 1)), ("c", .num (.int 3)), ("d", .num (.int 4))])
            "a.")
      ∧ (diff (JSVal.obj [("b", .num (.int 1)), ("c", .num (.int 2))])
            (JSVal.obj [("b", .num (.int 1)), ("c", .num (.int 3)), ("d", .num (.int 4))])
            "a.").map notifProj
        = leafChanges (JSVal.obj [("b", .num (.int 1)), ("c", .num (.int 2))])
            (JSVal.obj [("b", .num (.int 1)), ("c", .num (.int 3)), ("d", .num (.int 4))])
            "a.") :=
  ⟨by decide,
    C4_diff_reports_exactly_changed_leaves_on_safe_inputs.1 _ _ "a." (by decide)⟩

/-!
## The property interceptor (`watchPojo`)

`watchPojo` installs, once per object, a setter/getter pair per own
property, holding the current value in closure state (`curVal`), keeping
the array of raw listeners (`callbacks`) for the object, and recursively
watching object-valued properties through a synthesised re-pathing
listener that prefixes the nested path and forwards to `callback` — the
`callback` argument of the `watchPojo` invocation that performed the
installation.

The model replaces JS closures by explicit data: a `Listener` is either
an externally registered raw listener (identified by a number) or the
re-pathing wrapper around another listener; a watched object (`WObj`)
records the installation-time callback, the current listener array and
the per-property shadow state.
-/

/-- A raw listener: either the function registered from outside (for
observers, a `ChangeCollector`'s bound `onChange`), or the re-pathing
closure `function (nestedProp, oldVal, newVal) { callback(prop + "." +
nestedProp, oldVal, newVal); }` synthesised for a nested object. -/
inductive Listener where
  | external (id : Nat)
  | repath (prop : String) (target : Listener)
deriving DecidableEq, Repr

/-- One raw-listener invocation, fully unwound to the externally
registered listener it reaches: (listener id, path, oldVal, newVal). -/
structure Event where
  id : Nat
  path : String
  oldVal : JSVal
  newVal : JSVal
deriving DecidableEq, Repr

/-- Run a listener on a notification, unwinding re-pathing wrappers. -/
def runListener : Listener → String → JSVal → JSVal → Event
  | .external i, path, o, n => ⟨i, path, o, n⟩
  | .repath p t, path, o, n => runListener t (p ++ "." ++ path) o n

mutual
/-- A watched (instrumented) object: the `callback` captured by its
accessors at installation time, its current `callbacks` array, and the
shadow state of each own property, in enumeration order. -/
inductive WObj where
  | mk (installCb : Listener) (callbacks : List Listener) (props : List (String × WProp))
deriving Repr

/-- Shadow state of one intercepted property: a non-object current value,
or an object-valued current value together with its installed nested
watcher (the recursively watched object). -/
inductive WProp where
  | prim (v : JSVal)
  | nested (w : WObj)
deriving Repr
end

/-- The installation-time `callback` captured by the setters. -/
def WObj.installCb : WObj → Listener
  | .mk icb _ _ => icb

/-- The current `callbacks` array of the object. -/
def WObj.callbacks : WObj → List Listener
  | .mk _ cbs _ => cbs

/-- The per-property shadow states. -/
def WObj.props : WObj → List (String × WProp)
  | .mk _ _ ps => ps

mutual
/-- The plain JS value currently stored in a watched object (reading
every property through its getter). -/
def WObj.value : WObj → JSVal
  | .mk _ _ ps => .obj (propsValue ps)

/-- Values of a shadow-state list. -/
def propsValue : List (String × WProp) → List (String × JSVal)
  | [] => []
  | (p, .prim v) :: rest => (p, v) :: propsValue rest
  | (p, .nested w) :: rest => (p, w.value) :: propsValue rest
end

mutual
/-- First-time `watchPojo(pojo, callback)`: create the `callbacks` array,
instrument every own property (recursively watching object-valued ones
with a re-pathing listener forwarding to `callback`), then push
`callback`. -/
def installObj (cb : Listener) : JSVal → WObj
  | .obj fields => .mk cb [cb] (installProps cb fields)
  | _ => .mk cb [cb] []

/-- The `Object.keys(pojo).forEach` installation loop. -/
def installProps (cb : Listener) : List (String × JSVal) → List (String × WProp)
  | [] => []
  | (p, v) :: rest =>
    (p, if toBool v && isObjType v
        then WProp.nested (installObj (.repath p cb) v)
        else WProp.prim v) :: installProps cb rest
end

/-- The current value held by a property's shadow state (`curVal`). -/
def WProp.curVal : WProp → JSVal
  | .prim v => v
  | .nested w => w.value

/-- The local `notify` of the setter: invoke every raw listener attached
to the object, in registration order. -/
def notifyAll (cbs : List Listener) (path : String) (o n : JSVal) : List Event :=
  cbs.map fun cb => runListener cb path o n

/-- The intercepted setter, acting on the property list: find the
property, ignore the assignment if `is(newVal, curVal)`, otherwise
replace the nested watcher (dropping the old one, installing a fresh one
re-pathing to the installation-time `callback` when the new value is an
object), store the new value, and produce the notifications: a recursive
`diff` when the new value is an object, a single `notify` otherwise.
Assignment to a property that was not intercepted creates a plain,
unwatched property in JS: the model ignores it (no notifications). -/
def setProp (installCb : Listener) (cbs : List Listener) :
    List (String × WProp) → String → JSVal → List (String × WProp) × List Event
  | [], _, _ => ([], [])
  | (q, st) :: rest, p, newVal =>
    if q = p then
      if is newVal st.curVal then ((q, st) :: rest, [])
      else
        let newSt := if toBool newVal && isObjType newVal
                     then WProp.nested (installObj (.repath p installCb) newVal)
                     else WProp.prim newVal
        let events := if toBool newVal && isObjType newVal
                      then (diff st.curVal newVal (p ++ ".")).flatMap
                            (fun nt => notifyAll cbs nt.path nt.oldVal nt.newVal)
                      else notifyAll cbs p st.curVal newVal
        ((q, newSt) :: rest, events)
    else
      let res := setProp installCb cbs rest p newVal
      ((q, st) :: res.1, res.2)

/-- Assignment `w.p = v` on a watched object. -/
def setOnW (w : WObj) (p : String) (v : JSVal) : WObj × List Event :=
  match w with
  | .mk icb cbs ps =>
    let res := setProp icb cbs ps p v
    (.mk icb cbs res.1, res.2)

/-- Replace the shadow state of property `p` (first occurrence). -/
def updateProp (p : String) (st : WProp) : List (String × WProp) → List (String × WProp)
  | [] => []
  | (q, old) :: rest =>
    if q = p then (q, st) :: rest else (q, old) :: updateProp p st rest

/-- A mutation at a dotted path: `setAt w [p] v` is `w.p = v`, and
`setAt w (p :: rest) v` reads `w.p` through its getter (the nested
watched object) and performs the assignment inside it.  Notifications of
a nested assignment are produced by the nested object's own `callbacks`
array (which holds re-pathing listeners), exactly as in the source. -/
def setAt : WObj → List String → JSVal → WObj × List Event
  | w, [], _ => (w, [])
  | w, [p], v => setOnW w p v
  | w, p :: rest, v =>
    match lookupStr p w.props with
    | some (.nested wn) =>
      let res := setAt wn rest v
      (.mk w.installCb w.callbacks (updateProp p (.nested res.1) w.props), res.2)
    | _ => (w, [])

/-- `watchPojo` at the registry level: install on first registration,
append the listener to the existing array otherwise. -/
def watchPojo : Option WObj → JSVal → Listener → WObj
  | none, pojo, cb => installObj cb pojo
  | some w, _, cb => .mk w.installCb (w.callbacks ++ [cb]) w.props

/-- `indexOf` + `splice`: remove the first occurrence, if any. -/
def removeOnce (cb : Listener) : List Listener → List Listener
  | [] => []
  | c :: rest => if c = cb then rest else c :: removeOnce cb rest

/-- The `remove()` of the subscription returned by `watchPojo`: splice
the listener out of the object's `callbacks` array.  Nothing else is
touched. -/
def removeSub (w : WObj) (cb : Listener) : WObj :=
  .mk w.installCb (removeOnce cb w.callbacks) w.props

/-!
## Change collection and delivery (`ChangeCollector`, `deliverAllByTimeout`)
-/

/-- Per-observer collector state: the registration sequence number
(`this._seq`, assigned from the global counter at construction) and the
accumulated map from changed path to pre-batch original value
(`this.oldVals`, in insertion order). -/
structure ChangeCollector where
  seq : Nat
  oldVals : List (String × JSVal)
deriving DecidableEq, Repr

/-- `new ChangeCollector(callback)`: take the next registration sequence
number from the process-wide counter `seq` and start with an empty
pending map.  (The observer callback itself is not part of the model
state; deliveries are recorded as data.) -/
def newChangeCollector (seqCounter : Nat) : ChangeCollector × Nat :=
  ({ seq := seqCounter, oldVals := [] }, seqCounter + 1)

/-- `onChange(prop, oldVal)`: if `prop` is not yet a key of the pending
map, record `oldVal` under it and insert the collector into the
pending-delivery set (`hotChangeCollectors[this._seq] = this`).  The
declared parameters are `(prop, oldVal)`; the third argument a raw
listener is invoked with (`newVal`) is absorbed by the JS calling
convention and unused.  Returns the updated collector and whether the
hot-insertion line ran. -/
def ChangeCollector.onChange (c : ChangeCollector) (prop : String)
    (oldVal : JSVal) (newVal : JSVal) : ChangeCollector × Bool :=
  if (lookupStr prop c.oldVals).isSome then (c, false)
  else ({ c with oldVals := c.oldVals ++ [(prop, oldVal)] }, true)

/-- `deliver()`: swap the pending map out for an empty one, then invoke
the callback with the swapped-out map.  The model returns the callback's
argument together with the reset collector. -/
def ChangeCollector.deliver (c : ChangeCollector) :
    List (String × JSVal) × ChangeCollector :=
  (c.oldVals, { c with oldVals := [] })

/-- `hotChangeCollectors[seq] = collector`: keyed insertion into the
pending-delivery set; an existing entry with the same key is overwritten,
otherwise the entry is appended. -/
def markHot (hot : List ChangeCollector) (c : ChangeCollector) : List ChangeCollector :=
  if hot.any (fun d => d.seq = c.seq)
  then hot.map (fun d => if d.seq = c.seq then c else d)
  else hot ++ [c]

/-- `callbacks.sort(function (lhs, rhs) { return lhs._seq - rhs._seq; })`:
sort the snapshot by registration sequence number ascending. -/
def sortBySeq (l : List ChangeCollector) : List ChangeCollector :=
  List.insertionSort (fun a b => a.seq ≤ b.seq) l

/-- `deliverAllByTimeout`: repeatedly snapshot and clear the
pending-delivery set, sort the snapshot by registration sequence number
ascending and deliver each collector in that order, until a pass finds
an empty snapshot.  Observer callbacks are abstracted by `eff`: the
collectors (with their new pending maps) that delivering the collector
with a given sequence number makes hot; they accumulate into the cleared
set by keyed insertion, in delivery order.  `fuel` bounds the number of
passes, since the JS loop need not terminate when callbacks keep
mutating observed state.  Returns the list of observer-callback
invocations (sequence number, delivered map) in order. -/
def deliverAllByTimeout (eff : Nat → List ChangeCollector) :
    Nat → List ChangeCollector → List (Nat × List (String × JSVal))
  | 0, _ => []
  | fuel + 1, hot =>
    match sortBySeq hot with
    | [] => []
    | c :: cs =>
      ((c :: cs).map fun d => (d.seq, d.deliver.1)) ++
        deliverAllByTimeout eff fuel
          ((c :: cs).foldl (fun acc d => (eff d.seq).foldl markHot acc) [])

/-- A quiescent observer callback: it mutates nothing, so delivering it
makes no collector hot. -/
def effNone : Nat → List ChangeCollector := fun _ => []

instance : IsTotal ChangeCollector (fun a b => a.seq ≤ b.seq) :=
  ⟨fun a b => Nat.le_total a.seq b.seq⟩

instance : IsTrans ChangeCollector (fun a b => a.seq ≤ b.seq) :=
  ⟨fun _ _ _ => Nat.le_trans⟩

theorem sortBySeq_perm (l : List ChangeCollector) : (sortBySeq l).Perm l :=
  List.perm_insertionSort _ l

theorem sortBySeq_map_seq_sorted (l : List ChangeCollector) :
    ((sortBySeq l).map (fun c => c.seq)).Sorted (· ≤ ·) := by
  have h := List.sorted_insertionSort (fun a b : ChangeCollector => a.seq ≤ b.seq) l
  rw [List.Sorted, List.pairwise_map]
  exact h

theorem foldl_effNone (l : List ChangeCollector) (acc : List ChangeCollector) :
    l.foldl (fun acc d => (effNone d.seq).foldl markHot acc) acc = acc := by
  induction l generalizing acc with
  | nil => rfl
  | cons d rest ih => simp [effNone, List.foldl_cons, ih]

/-- With quiescent callbacks a drain session is a single delivering pass
over the sorted snapshot, followed by a pass that finds the set empty. -/
theorem deliverAll_effNone (hot : List ChangeCollector) :
    deliverAllByTimeout effNone 2 hot
      = (sortBySeq hot).map (fun c => (c.seq, c.deliver.1)) := by
  cases h : sortBySeq hot with
  | nil => simp [deliverAllByTimeout, h]
  | cons c cs =>
    have h0 : sortBySeq ([] : List ChangeCollector) = [] := rfl
    simp only [deliverAllByTimeout, h, foldl_effNone, h0, List.append_nil, List.map_cons]

/-- C1: the delivery loop snapshots and clears the pending set, sorts the
snapshot by registration sequence number ascending, delivers in that
order, and repeats until a pass produces an empty snapshot; consequently
three observers registered in order (strictly increasing sequence
numbers) that become hot within one synchronous burst — the pending set
being any permutation of them, whatever the mutation order was — are
delivered in registration order. -/
theorem C1_delivery_in_registration_order :
    (∀ hot : List ChangeCollector,
        deliverAllByTimeout effNone 2 hot
          = (sortBySeq hot).map (fun c => (c.seq, c.deliver.1)))
    ∧ (∀ (eff : Nat → List ChangeCollector) (fuel : Nat),
        deliverAllByTimeout eff (fuel + 1) [] = [])
    ∧ (∀ (c₁ c₂ c₃ : ChangeCollector) (hot : List ChangeCollector),
        c₁.seq < c₂.seq → c₂.seq < c₃.seq → hot.Perm [c₁, c₂, c₃] →
        (deliverAllByTimeout effNone 2 hot).map Prod.fst
          = [c₁.seq, c₂.seq, c₃.seq]) := by
  refine ⟨deliverAll_effNone, fun eff fuel => rfl, ?_⟩
  intro c₁ c₂ c₃ hot h12 h23 hperm
  rw [deliverAll_effNone, List.map_map]
  have hf : (Prod.fst ∘ fun c : ChangeCollector => (c.seq, c.deliver.1))
      = fun c : ChangeCollector => c.seq := rfl
  rw [hf]
  refine List.eq_of_perm_of_sorted
    (((sortBySeq_perm hot).map _).trans (hperm.map _))
    (sortBySeq_map_seq_sorted hot) ?_
  simp [List.sorted_cons]
  omega

/-- C1 witness: three collectors with registration numbers 0 < 1 < 2,
hot in scrambled order, delivered in registration order. -/
theorem C1_delivery_in_registration_order_witness :
    (0 < 1 ∧ 1 < 2
      ∧ ([⟨1, []⟩, ⟨2, []⟩, ⟨0, []⟩] : List ChangeCollector).Perm
          [⟨0, []⟩, ⟨1, []⟩, ⟨2, []⟩])
    ∧ (deliverAllByTimeout effNone 2
        [⟨1, []⟩, ⟨2, []⟩, ⟨0, []⟩]).map Prod.fst = [0, 1, 2] :=
  ⟨⟨Nat.zero_lt_one, Nat.one_lt_two,
      ((List.Perm.swap (⟨0, []⟩ : ChangeCollector) ⟨2, []⟩ []).cons ⟨1, []⟩).trans
        (List.Perm.swap (⟨0, []⟩ : ChangeCollector) ⟨1, []⟩ [⟨2, []⟩])⟩,
    C1_delivery_in_registration_order.2.2 ⟨0, []⟩ ⟨1, []⟩ ⟨2, []⟩ _
      Nat.zero_lt_one Nat.one_lt_two
      (((List.Perm.swap (⟨0, []⟩ : ChangeCollector) ⟨2, []⟩ []).cons ⟨1, []⟩).trans
        (List.Perm.swap (⟨0, []⟩ : ChangeCollector) ⟨1, []⟩ [⟨2, []⟩]))⟩

/-- The process state visible to a subscription's `remove()`: the watched
object and the pending-delivery set (whose entries are the hot collectors
with their accumulated maps). -/
structure SysState where
  w : WObj
  hot : List ChangeCollector

/-- `remove()` at process level: it only splices the raw listener out of
the object's `callbacks` array; neither `hotChangeCollectors` nor any
collector state is consulted or modified. -/
def sysRemove (s : SysState) (cb : Listener) : SysState :=
  { s with w := removeSub s.w cb }

/-- C8: removing a subscription whose collector is already hot detaches
only the raw listener; the pending-delivery set and the collectors'
accumulated maps are untouched, and a hot collector (distinct sequence
numbers) is still delivered exactly once at the next drain. -/
theorem C8_remove_leaves_hot_collector_delivered :
    ∀ (s : SysState) (cb : Listener),
      (sysRemove s cb).hot = s.hot
      ∧ (sysRemove s cb).w.props = s.w.props
      ∧ (sysRemove s cb).w.installCb = s.w.installCb
      ∧ (sysRemove s cb).w.callbacks = removeOnce cb s.w.callbacks
      ∧ (∀ c : ChangeCollector,
          ((sysRemove s cb).hot.map (fun d => d.seq)).Nodup →
          c ∈ (sysRemove s cb).hot →
          ((deliverAllByTimeout effNone 2 (sysRemove s cb).hot).map
              Prod.fst).count c.seq = 1) := by
  intro s cb
  refine ⟨rfl, rfl, rfl, rfl, ?_⟩
  intro c hnd hmem
  rw [deliverAll_effNone, List.map_map]
  have hf : (Prod.fst ∘ fun c : ChangeCollector => (c.seq, c.deliver.1))
      = fun c : ChangeCollector => c.seq := rfl
  rw [hf]
  rw [List.Perm.count_eq ((sortBySeq_perm _).map _)]
  exact List.count_eq_one_of_mem hnd (List.mem_map_of_mem _ hmem)

/-- C8 witness: a one-collector pending set survives `remove()` and is
delivered once. -/
theorem C8_remove_leaves_hot_collector_delivered_witness :
    ((([⟨0, [("x", JSVal.num (.int 1))]⟩] : List ChangeCollector).map
        (fun d => d.seq)).Nodup
      ∧ (⟨0, [("x", JSVal.num (.int 1))]⟩ : ChangeCollector)
          ∈ ([⟨0, [("x", JSVal.num (.int 1))]⟩] : List ChangeCollector))
    ∧ ((deliverAllByTimeout effNone 2
          (sysRemove ⟨installObj (.external 0) (.obj [("x", JSVal.num (.int 1))]),
            [⟨0, [("x", JSVal.num (.int 1))]⟩]⟩ (.external 0)).hot).map
        Prod.fst).count 0 = 1 :=
  ⟨⟨by decide, by decide⟩,
    (C8_remove_leaves_hot_collector_delivered
      ⟨installObj (.external 0) (.obj [("x", JSVal.num (.int 1))]),
        [⟨0, [("x", JSVal.num (.int 1))]⟩]⟩ (.external 0)).2.2.2.2
      ⟨0, [("x", JSVal.num (.int 1))]⟩ (by decide) (by decide)⟩

/-- One raw-listener invocation feeding a collector's intake: run
`onChange` and, when its hot-insertion line ran, insert the collector
into the pending-delivery set. -/
def intakeOne (st : ChangeCollector × List ChangeCollector) (e : Event) :
    ChangeCollector × List ChangeCollector :=
  let res := st.1.onChange e.path e.oldVal e.newVal
  (res.1, if res.2 then markHot st.2 res.1 else st.2)

/-- Feed a list of raw-listener invocations into a collector's intake,
in order, tracking the pending-delivery set. -/
def intakeAll (c : ChangeCollector) (hot : List ChangeCollector)
    (evs : List Event) : ChangeCollector × List ChangeCollector :=
  evs.foldl intakeOne (c, hot)

theorem intakeAll_ignores_newVal : ∀ (evs₁ evs₂ : List Event)
    (st : ChangeCollector × List ChangeCollector),
    evs₁.map (fun e => (e.path, e.oldVal)) = evs₂.map (fun e => (e.path, e.oldVal)) →
    evs₁.foldl intakeOne st = evs₂.foldl intakeOne st
  | [], [], _, _ => rfl
  | [], _ :: _, _, h => by simp at h
  | _ :: _, [], _, h => by simp at h
  | e :: r, f :: s, st, h => by
    simp only [List.map_cons, List.cons.injEq, Prod.mk.injEq] at h
    obtain ⟨⟨h1, h2⟩, h3⟩ := h
    have he : intakeOne st e = intakeOne st f := by
      simp [intakeOne, ChangeCollector.onChange, h1, h2]
    rw [List.foldl_cons, List.foldl_cons, he]
    exact intakeAll_ignores_newVal r s _ h3

/-- C10: `onChange` ignores its `newVal` argument, so two runs feeding
the same (path, oldValue) sequence with arbitrary differing new values
produce identical collector states, pending sets and delivered summary
maps. -/
theorem C10_summary_independent_of_new_values :
    (∀ (c : ChangeCollector) (p : String) (o n₁ n₂ : JSVal),
        c.onChange p o n₁ = c.onChange p o n₂)
    ∧ (∀ (c : ChangeCollector) (hot : List ChangeCollector)
        (evs₁ evs₂ : List Event),
        evs₁.map (fun e => (e.path, e.oldVal))
          = evs₂.map (fun e => (e.path, e.oldVal)) →
        intakeAll c hot evs₁ = intakeAll c hot evs₂
          ∧ (intakeAll c hot evs₁).1.deliver.1
              = (intakeAll c hot evs₂).1.deliver.1) := by
  refine ⟨fun c p o n₁ n₂ => rfl, ?_⟩
  intro c hot evs₁ evs₂ h
  have he := intakeAll_ignores_newVal evs₁ evs₂ (c, hot) h
  exact ⟨he, by rw [intakeAll, intakeAll, he]⟩

/-- C10 witness: same (path, oldValue) trace, different new values. -/
theorem C10_summary_independent_of_new_values_witness :
    ([⟨0, "x", .num (.int 1), .num (.int 2)⟩] : List Event).map
        (fun e => (e.path, e.oldVal))
      = ([⟨0, "x", .num (.int 1), .str "other"⟩] : List Event).map
        (fun e => (e.path, e.oldVal))
    ∧ intakeAll ⟨0, []⟩ [] [⟨0, "x", .num (.int 1), .num (.int 2)⟩]
        = intakeAll ⟨0, []⟩ [] [⟨0, "x", .num (.int 1), .str "other"⟩] :=
  ⟨by decide,
    ((C10_summary_independent_of_new_values.2 ⟨0, []⟩ []
      [⟨0, "x", .num (.int 1), .num (.int 2)⟩]
      [⟨0, "x", .num (.int 1), .str "other"⟩] (by decide)).1)⟩

theorem setProp_noop : ∀ (props : List (String × WProp)) (icb : Listener)
    (cbs : List Listener) (p : String) (v : JSVal) (st : WProp),
    lookupStr p props = some st → is v st.curVal = true →
    setProp icb cbs props p v = (props, [])
  | [], _, _, _, _, _, h, _ => by simp [lookupStr] at h
  | (q, st0) :: rest, icb, cbs, p, v, st, h, his => by
    by_cases hq : q = p
    · simp only [lookupStr, if_pos hq, Option.some.injEq] at h
      subst h
      simp [setProp, hq, his]
    · simp only [lookupStr, if_neg hq] at h
      simp [setProp, hq, setProp_noop rest icb cbs p v st h his]

/-- C5: the intercepted setter is a no-op — shadow state unchanged, no
notifications — exactly when the new value is same-value-equal to the
shadow value, where the polyfilled `is` agrees with SameValue (`-0`
distinct from `+0`, `NaN` equal to itself); writing `-0` over `+0`
notifies, writing `NaN` over `NaN` does not. -/
theorem C5_setter_noop_on_sameValue :
    (∀ (w : WObj) (p : String) (v : JSVal) (st : WProp),
        lookupStr p w.props = some st → is v st.curVal = true →
        setOnW w p v = (w, []))
    ∧ (∀ l r : JSVal, is l r = sameValue l r)
    ∧ is (.num .negZero) (.num (.int 0)) = false
    ∧ is (.num (.int 0)) (.num .negZero) = false
    ∧ is (.num .nan) (.num .nan) = true
    ∧ (setOnW (installObj (.external 0) (.obj [("x", .num (.int 0))]))
        "x" (.num .negZero)).2
        = [⟨0, "x", .num (.int 0), .num .negZero⟩]
    ∧ setOnW (installObj (.external 0) (.obj [("x", .num .nan)])) "x" (.num .nan)
        = (installObj (.external 0) (.obj [("x", .num .nan)]), []) := by
  refine ⟨?_, is_eq_sameValue, by decide, by decide, by decide, by decide, by rfl⟩
  intro w p v st h his
  cases w with
  | mk icb cbs props =>
    simp [setOnW, setProp_noop props icb cbs p v st h his]

/-- C5 witness: assigning the current value back is ignored. -/
theorem C5_setter_noop_on_sameValue_witness :
    (lookupStr "x" (installObj (.external 0) (.obj [("x", .str "v")])).props
        = some (.prim (.str "v"))
      ∧ is (.str "v") (WProp.prim (.str "v")).curVal = true)
    ∧ setOnW (installObj (.external 0) (.obj [("x", .str "v")])) "x" (.str "v")
        = (installObj (.external 0) (.obj [("x", .str "v")]), []) :=
  ⟨⟨rfl, by decide⟩,
    C5_setter_noop_on_sameValue.1 (installObj (.external 0) (.obj [("x", .str "v")]))
      "x" (.str "v") (.prim (.str "v")) rfl (by decide)⟩

/-- C7: accessors are installed only on the first registration for an
object (`watchPojo` with no registry entry); every later watch of the
same object appends its listener to the existing array, leaving the
property states, and the installation-time callback captured by the
accessors, untouched. -/
theorem C7_accessors_installed_at_most_once :
    ∀ (w : WObj) (pojo : JSVal) (cb : Listener),
      watchPojo none pojo cb = installObj cb pojo
      ∧ (watchPojo (some w) pojo cb).props = w.props
      ∧ (watchPojo (some w) pojo cb).installCb = w.installCb
      ∧ (watchPojo (some w) pojo cb).callbacks = w.callbacks ++ [cb] := by
  intro w pojo cb
  exact ⟨rfl, rfl, rfl, rfl⟩

namespace JSVal

/-- `typeof m === "function"` for a member value: the model's plain data
objects carry no function-valued members. -/
def typeofFunction : JSVal → Bool := fun _ => false

/-- Property access `target.p`: throws a `TypeError` on `undefined` and
`null`, boxes other primitives (whose boxes have no `observe` member),
reads the field on objects. -/
def getMember (v : JSVal) (p : String) : Except String JSVal :=
  match v with
  | .undef => .error "TypeError: cannot read properties of undefined"
  | .null => .error "TypeError: cannot read properties of null"
  | .obj fields => .ok (jsGet (.obj fields) p)
  | _ => .ok .undef

end JSVal

/-- `map.set(pojo, callbacks)` on the `WeakMap` registry: a primitive key
throws `TypeError: Invalid value used as weak map key`. -/
def weakMapSet (key : JSVal) : Except String Unit :=
  match key with
  | .obj _ => .ok ()
  | _ => .error "TypeError: Invalid value used as weak map key"

/-- `watchPojo(pojo, callback)` on a target with no registry entry: the
first statement of the fresh path is `map.set(pojo, callbacks)`, which
throws before any accessor is installed when the target is primitive. -/
def watchPojoChecked (pojo : JSVal) (cb : Listener) : Except String WObj :=
  match weakMapSet pojo with
  | .error e => .error e
  | .ok _ => .ok (installObj cb pojo)

/-- `observePojo(pojo, callback)`: construct the collector's intake and
watch the target (the fallible part is the watch). -/
def observePojo (pojo : JSVal) (cb : Listener) : Except String WObj :=
  watchPojoChecked pojo cb

/-- The public entry point `observe(obj, callback)`: delegate to
`obj.observe` when that member is a function (a case outside this model,
whose plain objects carry no functions), otherwise the plain-object
path. -/
def observeEntry (target : JSVal) (cb : Listener) : Except String WObj :=
  match getMember target "observe" with
  | .error e => .error e
  | .ok m =>
    if typeofFunction m then .error "unmodelled: self-observing target"
    else observePojo target cb

/-- C9: a primitive (non-object) target makes `observe` fail fast with a
`TypeError` — reading `.observe` throws for `undefined`/`null`, and the
registry's `WeakMap.set` throws for every other primitive — rather than
returning a no-op subscription. -/
theorem C9_primitive_target_fails_fast :
    ∀ (target : JSVal) (cb : Listener), isObj target = false →
      ∃ e, observeEntry target cb = .error e := by
  intro t cb h
  cases t with
  | undef => exact ⟨_, rfl⟩
  | null => exact ⟨_, rfl⟩
  | bool b => exact ⟨_, rfl⟩
  | num a => exact ⟨_, rfl⟩
  | str s => exact ⟨_, rfl⟩
  | obj f => simp [isObj] at h

/-- C9 witness: observing the number `5` throws. -/
theorem C9_primitive_target_fails_fast_witness :
    isObj (.num (.int 5)) = false
    ∧ ∃ e, observeEntry (.num (.int 5)) (.external 0) = .error e :=
  ⟨rfl, C9_primitive_target_fails_fast (.num (.int 5)) (.external 0) rfl⟩

/-- The object `{a: {b: 1}}` of the nested-mutation scenarios. -/
def objAB1 : JSVal := .obj [("a", .obj [("b", .num (.int 1))])]

/-- C3 fails on the code: with two raw listeners attached in order to
`{a: {b: 1}}`, the nested mutation `o.a.b = 2` produces a notification
that reaches only the first (installation-time) listener — the nested
object's `callbacks` array holds a single re-pathing closure forwarding
to the `callback` captured when accessors were installed — while a
top-level mutation does notify both listeners in registration order. -/
theorem C3_nested_mutation_reaches_only_install_listener :
    (watchPojo (some (watchPojo none objAB1 (.external 1))) objAB1
        (.external 2)).callbacks = [.external 1, .external 2]
    ∧ (setAt (watchPojo (some (watchPojo none objAB1 (.external 1))) objAB1
        (.external 2)) ["a", "b"] (.num (.int 2))).2
        = [⟨1, "a.b", .num (.int 1), .num (.int 2)⟩]
    ∧ (setAt (watchPojo (some (watchPojo none objAB1 (.external 1))) objAB1
        (.external 2)) ["a"] (.num (.int 5))).2
        = [⟨1, "a", .obj [("b", .num (.int 1))], .num (.int 5)⟩,
           ⟨2, "a", .obj [("b", .num (.int 1))], .num (.int 5)⟩] :=
  ⟨rfl, by decide, by decide⟩

/-- C6 fails on the code: removing the (sole, first-registered) observer
empties the object's own `callbacks` array, yet the nested object still
holds the re-pathing listener created at installation, so the nested
mutation `o.a.b = 2` still reaches the removed observer's intake, marks
its collector hot, and the next drain invokes its callback with
`{"a.b": 1}`. -/
theorem C6_removed_observer_still_invoked_for_nested_mutation :
    (removeSub (watchPojo none objAB1 (.external 0)) (.external 0)).callbacks = []
    ∧ (setAt (removeSub (watchPojo none objAB1 (.external 0)) (.external 0))
        ["a", "b"] (.num (.int 2))).2
        = [⟨0, "a.b", .num (.int 1), .num (.int 2)⟩]
    ∧ deliverAllByTimeout effNone 2
        (intakeAll ⟨0, []⟩ []
          (setAt (removeSub (watchPojo none objAB1 (.external 0)) (.external 0))
            ["a", "b"] (.num (.int 2))).2).2
        = [(0, [("a.b", .num (.int 1))])] :=
  ⟨rfl, by decide, by decide⟩

/-!
## End-to-end batching for one observer (C2)
-/

/-- A value the setter treats as a leaf (not a truthy object). -/
def isLeaf (v : JSVal) : Bool := !(toBool v && isObjType v)

/-- Shadow states of a flat record (every property a leaf). -/
def primProps (fields : List (String × JSVal)) : List (String × WProp) :=
  fields.map (fun pv => (pv.1, WProp.prim pv.2))

/-- The flat shadow evolution induced by the setter: update the first
matching property unless the written value is `is`-equal to the current
one; writes to unintercepted keys are dropped (they create plain,
unwatched properties in JS). -/
def applySetFlat : List (String × JSVal) → String → JSVal → List (String × JSVal)
  | [], _, _ => []
  | (q, x) :: rest, p, v =>
    if q = p then (if is v x then (q, x) :: rest else (q, v) :: rest)
    else (q, x) :: applySetFlat rest p v

/-- The collector component of `intakeAll`. -/
def cIntake (c : ChangeCollector) (evs : List Event) : ChangeCollector :=
  evs.foldl (fun c e => (c.onChange e.path e.oldVal e.newVal).1) c

/-- One observer session: perform the assignments in order on the
watched object, feeding every raw notification into the observer's
collector intake and tracking the pending-delivery set. -/
def runSets : WObj → ChangeCollector → List ChangeCollector →
    List (String × JSVal) → WObj × ChangeCollector × List ChangeCollector
  | w, c, hot, [] => (w, c, hot)
  | w, c, hot, (p, v) :: rest =>
    let res := setOnW w p v
    let ch := intakeAll c hot res.2
    runSets res.1 ch.1 ch.2 rest

theorem propsValue_primProps (fields : List (String × JSVal)) :
    propsValue (primProps fields) = fields := by
  induction fields with
  | nil => rfl
  | cons h t ih =>
    obtain ⟨p, v⟩ := h
    simp [primProps, propsValue] at ih ⊢
    exact ih

theorem installProps_flat : ∀ (cb : Listener) (fields : List (String × JSVal)),
    (∀ pv ∈ fields, isLeaf pv.2 = true) → installProps cb fields = primProps fields
  | _, [], _ => rfl
  | cb, (p, v) :: rest, h => by
    have hv : isLeaf v = true := h (p, v) (List.mem_cons_self _ _)
    have hv2 : (toBool v && isObjType v) = false := by
      cases hb : (toBool v && isObjType v) with
      | false => rfl
      | true => rw [isLeaf, hb] at hv; simp at hv
    show (p, if (toBool v && isObjType v) then
            WProp.nested (installObj (.repath p cb) v) else WProp.prim v)
          :: installProps cb rest = primProps ((p, v) :: rest)
    rw [hv2, installProps_flat cb rest (fun pv hm => h pv (List.mem_cons_of_mem _ hm))]
    rfl

theorem lookupStr_append (p : String) (l₁ l₂ : List (String × α)) :
    lookupStr p (l₁ ++ l₂)
      = (match lookupStr p l₁ with
         | some x => some x
         | none => lookupStr p l₂) := by
  induction l₁ with
  | nil => simp [lookupStr]
  | cons h t ih =>
    obtain ⟨q, v⟩ := h
    by_cases hq : q = p <;> simp [lookupStr, hq, ih]

theorem onChange_present (c : ChangeCollector) (p : String) (x n : JSVal)
    (h : (lookupStr p c.oldVals).isSome = true) :
    c.onChange p x n = (c, false) := by
  simp [ChangeCollector.onChange, h]

theorem onChange_absent (c : ChangeCollector) (p : String) (x n : JSVal)
    (h : lookupStr p c.oldVals = none) :
    c.onChange p x n = ({ c with oldVals := c.oldVals ++ [(p, x)] }, true) := by
  simp [ChangeCollector.onChange, h]

theorem cIntake_cons (c : ChangeCollector) (e : Event) (r : List Event) :
    cIntake c (e :: r) = cIntake ((c.onChange e.path e.oldVal e.newVal).1) r := rfl

theorem intakeAll_fst : ∀ (evs : List Event) (c : ChangeCollector)
    (hot : List ChangeCollector), (intakeAll c hot evs).1 = cIntake c evs
  | [], _, _ => rfl
  | e :: r, c, hot => by
    rw [intakeAll, List.foldl_cons, cIntake_cons]
    exact intakeAll_fst r _ _

theorem cIntake_seq : ∀ (evs : List Event) (c : ChangeCollector),
    (cIntake c evs).seq = c.seq
  | [], _ => rfl
  | e :: r, c => by
    rw [cIntake_cons]
    rw [cIntake_seq r _]
    by_cases h : (lookupStr e.path c.oldVals).isSome = true
    · rw [onChange_present c _ _ _ h]
    · have hn : lookupStr e.path c.oldVals = none := by
        cases hh : lookupStr e.path c.oldVals <;> simp_all
      rw [onChange_absent c _ _ _ hn]

theorem cIntake_keeps_some : ∀ (evs : List Event) (c : ChangeCollector)
    (p : String) (x : JSVal),
    lookupStr p c.oldVals = some x → lookupStr p (cIntake c evs).oldVals = some x
  | [], _, _, _, h => h
  | e :: r, c, p, x, h => by
    rw [cIntake_cons]
    by_cases he : (lookupStr e.path c.oldVals).isSome = true
    · rw [onChange_present c _ _ _ he]
      exact cIntake_keeps_some r c p x h
    · have hn : lookupStr e.path c.oldVals = none := by
        cases hh : lookupStr e.path c.oldVals <;> simp_all
      rw [onChange_absent c _ _ _ hn]
      refine cIntake_keeps_some r _ p x ?_
      rw [show ({ c with oldVals := c.oldVals ++ [(e.path, e.oldVal)] } :
            ChangeCollector).oldVals = c.oldVals ++ [(e.path, e.oldVal)] from rfl,
          lookupStr_append, h]

theorem cIntake_none_find : ∀ (evs : List Event) (c : ChangeCollector) (p : String),
    lookupStr p c.oldVals = none →
    lookupStr p (cIntake c evs).oldVals
      = ((evs.find? (fun e => e.path == p)).map (fun e => e.oldVal))
  | [], c, p, h => by simp [cIntake, h]
  | e :: r, c, p, h => by
    rw [cIntake_cons]
    by_cases hep : e.path = p
    · have hn : lookupStr e.path c.oldVals = none := by rw [hep]; exact h
      rw [onChange_absent c _ _ _ hn]
      have hx : lookupStr p
          ({ c with oldVals := c.oldVals ++ [(e.path, e.oldVal)] } :
            ChangeCollector).oldVals = some e.oldVal := by
        rw [show ({ c with oldVals := c.oldVals ++ [(e.path, e.oldVal)] } :
              ChangeCollector).oldVals = c.oldVals ++ [(e.path, e.oldVal)] from rfl,
            lookupStr_append, h, hep]
        simp [lookupStr]
      rw [cIntake_keeps_some r _ p e.oldVal hx]
      simp [List.find?, hep]
    · by_cases he : (lookupStr e.path c.oldVals).isSome = true
      · have hb : (e.path == p) = false := by simp [hep]
        rw [onChange_present c _ _ _ he, cIntake_none_find r c p h]
        simp [List.find?, hb]
      · have hn : lookupStr e.path c.oldVals = none := by
          cases hh : lookupStr e.path c.oldVals <;> simp_all
        rw [onChange_absent c _ _ _ hn]
        have h2 : lookupStr p
            ({ c with oldVals := c.oldVals ++ [(e.path, e.oldVal)] } :
              ChangeCollector).oldVals = none := by
          rw [show ({ c with oldVals := c.oldVals ++ [(e.path, e.oldVal)] } :
                ChangeCollector).oldVals = c.oldVals ++ [(e.path, e.oldVal)] from rfl,
              lookupStr_append, h]
          simp [lookupStr, hep]
        rw [cIntake_none_find r _ p h2]
        have hb : (e.path == p) = false := by simp [hep]
        simp [List.find?, hb]

theorem setProp_flat : ∀ (cur : List (String × JSVal)) (icb : Listener)
    (cbs : List Listener) (p : String) (v : JSVal), isLeaf v = true →
    setProp icb cbs (primProps cur) p v
      = (primProps (applySetFlat cur p v),
         match lookupStr p cur with
         | none => []
         | some x => if is v x then [] else notifyAll cbs p x v)
  | [], icb, cbs, p, v, hv => by simp [primProps, setProp, applySetFlat, lookupStr]
  | (q, x) :: rest, icb, cbs, p, v, hv => by
    have hv2 : (toBool v && isObjType v) = false := by
      cases hb : (toBool v && isObjType v) with
      | false => rfl
      | true => rw [isLeaf, hb] at hv; simp at hv
    by_cases hq : q = p
    · by_cases hisv : is v x = true
      · simp [primProps, setProp, applySetFlat, lookupStr, hq, hisv, WProp.curVal]
      · have hf : is v x = false := by
          cases hh : is v x <;> simp_all
        simp [primProps, setProp, applySetFlat, lookupStr, hq, hf, hv2, WProp.curVal]
    · have ih := setProp_flat rest icb cbs p v hv
      simp only [primProps, List.map_cons] at ih ⊢
      simp [setProp, applySetFlat, lookupStr, hq, ih]

theorem applySetFlat_none : ∀ (cur : List (String × JSVal)) (p : String) (v : JSVal),
    lookupStr p cur = none → applySetFlat cur p v = cur
  | [], _, _, _ => rfl
  | (q, x) :: rest, p, v, h => by
    by_cases hq : q = p
    · simp [lookupStr, hq] at h
    · simp only [lookupStr, if_neg hq] at h
      simp [applySetFlat, hq, applySetFlat_none rest p v h]

theorem applySetFlat_same : ∀ (cur : List (String × JSVal)) (p : String)
    (v x : JSVal), lookupStr p cur = some x → is v x = true →
    applySetFlat cur p v = cur
  | [], _, _, _, h, _ => by simp [lookupStr] at h
  | (q, y) :: rest, p, v, x, h, hisv => by
    by_cases hq : q = p
    · simp only [lookupStr, if_pos hq, Option.some.injEq] at h
      subst h
      simp [applySetFlat, hq, hisv]
    · simp only [lookupStr, if_neg hq] at h
      simp [applySetFlat, hq, applySetFlat_same rest p v x h hisv]

theorem lookupStr_applySetFlat_ne : ∀ (cur : List (String × JSVal)) (p : String)
    (v : JSVal) (q : String), q ≠ p →
    lookupStr q (applySetFlat cur p v) = lookupStr q cur
  | [], _, _, _, _ => rfl
  | (n, x) :: rest, p, v, q, hqp => by
    by_cases hn : n = p
    · have hnq : n ≠ q := fun h => hqp (h ▸ hn)
      by_cases hisv : is v x = true
      · rw [applySetFlat, if_pos hn, if_pos hisv]
      · rw [applySetFlat, if_pos hn, if_neg hisv]
        simp [lookupStr, hnq]
    · rw [applySetFlat, if_neg hn]
      simp [lookupStr, lookupStr_applySetFlat_ne rest p v q hqp]

theorem applySetFlat_leaf : ∀ (cur : List (String × JSVal)) (p : String)
    (v : JSVal), (∀ pv ∈ cur, isLeaf pv.2 = true) → isLeaf v = true →
    ∀ pv ∈ applySetFlat cur p v, isLeaf pv.2 = true
  | [], _, _, _, _, _, hm => by simp [applySetFlat] at hm
  | (q, x) :: rest, p, v, hcur, hv, pv, hm => by
    by_cases hq : q = p
    · by_cases hisv : is v x = true
      · rw [applySetFlat, if_pos hq, if_pos hisv] at hm
        exact hcur pv hm
      · rw [applySetFlat, if_pos hq, if_neg hisv] at hm
        rcases List.mem_cons.mp hm with h | h
        · subst h; exact hv
        · exact hcur pv (List.mem_cons_of_mem _ h)
    · rw [applySetFlat, if_neg hq] at hm
      rcases List.mem_cons.mp hm with h | h
      · subst h; exact hcur _ (List.mem_cons_self _ _)
      · exact applySetFlat_leaf rest p v
          (fun pw hw => hcur pw (List.mem_cons_of_mem _ hw)) hv pv h

theorem markHot_shape (c c' : ChangeCollector) (h : c'.seq = c.seq) :
    markHot (if c.oldVals = [] then [] else [c]) c' = [c'] := by
  by_cases he : c.oldVals = [] <;> simp [markHot, he, h]

theorem intakeAll_hot_shape : ∀ (evs : List Event) (c : ChangeCollector)
    (hot : List ChangeCollector),
    hot = (if c.oldVals = [] then [] else [c]) →
    (intakeAll c hot evs).2
      = (if (cIntake c evs).oldVals = [] then [] else [cIntake c evs])
  | [], c, hot, h => h
  | e :: r, c, hot, h => by
    rw [intakeAll, List.foldl_cons]
    by_cases he : (lookupStr e.path c.oldVals).isSome = true
    · have h1 : intakeOne (c, hot) e = (c, hot) := by
        simp [intakeOne, onChange_present c _ _ _ he]
      rw [h1, cIntake_cons, onChange_present c _ _ _ he]
      exact intakeAll_hot_shape r c hot h
    · have hn : lookupStr e.path c.oldVals = none := by
        cases hh : lookupStr e.path c.oldVals <;> simp_all
      have h1 : intakeOne (c, hot) e
          = ({ c with oldVals := c.oldVals ++ [(e.path, e.oldVal)] },
             markHot hot { c with oldVals := c.oldVals ++ [(e.path, e.oldVal)] }) := by
        simp [intakeOne, onChange_absent c _ _ _ hn]
      rw [h1, cIntake_cons, onChange_absent c _ _ _ hn]
      refine intakeAll_hot_shape r _ _ ?_
      rw [h, markHot_shape c
        { c with oldVals := c.oldVals ++ [(e.path, e.oldVal)] } rfl]
      have : ({ c with oldVals := c.oldVals ++ [(e.path, e.oldVal)] } :
          ChangeCollector).oldVals ≠ [] := by simp
      simp [this]

theorem drain_single (c : ChangeCollector) :
    deliverAllByTimeout effNone 2 [c] = [(c.seq, c.oldVals)] := by
  rw [deliverAll_effNone]
  rfl

theorem runSets_flat_inv : ∀ (sets cur init : List (String × JSVal))
    (icb : Listener) (i : Nat) (c : ChangeCollector) (hot : List ChangeCollector),
    (∀ pv ∈ cur, isLeaf pv.2 = true) →
    (∀ pv ∈ sets, isLeaf pv.2 = true) →
    (∀ p x, lookupStr p c.oldVals = some x → lookupStr p init = some x) →
    (∀ p, lookupStr p c.oldVals = none → lookupStr p cur = lookupStr p init) →
    hot = (if c.oldVals = [] then [] else [c]) →
    ∃ cur2 c2,
      runSets (.mk icb [.external i] (primProps cur)) c hot sets
        = (.mk icb [.external i] (primProps cur2), c2,
           if c2.oldVals = [] then [] else [c2])
      ∧ c2.seq = c.seq
      ∧ (∀ pv ∈ cur2, isLeaf pv.2 = true)
      ∧ (∀ p x, lookupStr p c2.oldVals = some x → lookupStr p init = some x)
      ∧ (∀ p, lookupStr p c2.oldVals = none → lookupStr p cur2 = lookupStr p init)
  | [], cur, init, icb, i, c, hot, hcur, hsets, hsome, hnone, hhot =>
    ⟨cur, c, by simp only [runSets, hhot], rfl, hcur, hsome, hnone⟩
  | (p, v) :: rest, cur, init, icb, i, c, hot, hcur, hsets, hsome, hnone, hhot => by
    have hv : isLeaf v = true := hsets (p, v) (List.mem_cons_self _ _)
    have hrest : ∀ pv ∈ rest, isLeaf pv.2 = true :=
      fun pv hm => hsets pv (List.mem_cons_of_mem _ hm)
    simp only [runSets, setOnW]
    rw [setProp_flat cur icb [.external i] p v hv]
    dsimp only
    cases hl : lookupStr p cur with
    | none =>
      rw [applySetFlat_none cur p v hl]
      exact runSets_flat_inv rest cur init icb i c hot hcur hrest hsome hnone hhot
    | some x =>
      dsimp only
      by_cases hisv : is v x = true
      · rw [if_pos hisv, applySetFlat_same cur p v x hl hisv]
        exact runSets_flat_inv rest cur init icb i c hot hcur hrest hsome hnone hhot
      · rw [if_neg hisv]
        have hev : notifyAll [Listener.external i] p x v
            = [⟨i, p, x, v⟩] := rfl
        rw [hev]
        have hcur2 := applySetFlat_leaf cur p v hcur hv
        cases hc : lookupStr p c.oldVals with
        | some y =>
          have h1 : intakeAll c hot [⟨i, p, x, v⟩] = (c, hot) := by
            simp [intakeAll, intakeOne, onChange_present c p x v (by simp [hc])]
          rw [h1]
          dsimp only
          refine runSets_flat_inv rest (applySetFlat cur p v) init icb i c hot
            hcur2 hrest hsome ?_ hhot
          intro q hq
          have hqp : q ≠ p := fun h => by rw [h, hc] at hq; exact Option.noConfusion hq
          rw [lookupStr_applySetFlat_ne cur p v q hqp]
          exact hnone q hq
        | none =>
          have h1 : intakeAll c hot [⟨i, p, x, v⟩]
              = ({ c with oldVals := c.oldVals ++ [(p, x)] },
                 markHot hot { c with oldVals := c.oldVals ++ [(p, x)] }) := by
            simp [intakeAll, intakeOne, onChange_absent c p x v hc]
          rw [h1]
          dsimp only
          rw [hhot, markHot_shape c { c with oldVals := c.oldVals ++ [(p, x)] } rfl]
          have hne : ({ c with oldVals := c.oldVals ++ [(p, x)] } :
              ChangeCollector).oldVals ≠ [] := by simp
          have hhot2 : ([{ c with oldVals := c.oldVals ++ [(p, x)] }] :
              List ChangeCollector)
              = if ({ c with oldVals := c.oldVals ++ [(p, x)] } :
                  ChangeCollector).oldVals = [] then []
                else [{ c with oldVals := c.oldVals ++ [(p, x)] }] := by
            simp [hne]
          have hsome2 : ∀ q y,
              lookupStr q ({ c with oldVals := c.oldVals ++ [(p, x)] } :
                ChangeCollector).oldVals = some y →
              lookupStr q init = some y := by
            intro q y hq
            rw [show ({ c with oldVals := c.oldVals ++ [(p, x)] } :
                  ChangeCollector).oldVals = c.oldVals ++ [(p, x)] from rfl,
                lookupStr_append] at hq
            cases hq0 : lookupStr q c.oldVals with
            | some z =>
              rw [hq0] at hq
              dsimp only at hq
              injection hq with hzy
              exact hsome q y (hzy ▸ hq0)
            | none =>
              rw [hq0] at hq
              dsimp only at hq
              by_cases hqp : p = q
              · subst hqp
                simp [lookupStr] at hq
                rw [← hnone p hq0, hl, hq]
              · simp [lookupStr, hqp] at hq
          have hnone2 : ∀ q,
              lookupStr q ({ c with oldVals := c.oldVals ++ [(p, x)] } :
                ChangeCollector).oldVals = none →
              lookupStr q (applySetFlat cur p v) = lookupStr q init := by
            intro q hq
            rw [show ({ c with oldVals := c.oldVals ++ [(p, x)] } :
                  ChangeCollector).oldVals = c.oldVals ++ [(p, x)] from rfl,
                lookupStr_append] at hq
            cases hq0 : lookupStr q c.oldVals with
            | some z =>
              rw [hq0] at hq
              dsimp only at hq
              exact Option.noConfusion hq
            | none =>
              rw [hq0] at hq
              dsimp only at hq
              have hqp : q ≠ p := by
                intro h
                subst h
                simp [lookupStr] at hq
              rw [lookupStr_applySetFlat_ne cur p v q hqp]
              exact hnone q hq0
          exact runSets_flat_inv rest (applySetFlat cur p v) init icb i
            { c with oldVals := c.oldVals ++ [(p, x)] }
            [{ c with oldVals := c.oldVals ++ [(p, x)] }]
            hcur2 hrest hsome2 hnone2 hhot2

/-- C2: synchronous mutations before the drain produce one callback
invocation whose argument maps each changed path to the value it had
immediately before its first change in the batch.  (i) The collector's
intake is first-write-wins: starting from an empty batch, the recorded
original value of a path is the `oldVal` of the first notification
naming it.  (ii) `deliver` swaps the pending map out for an empty one
and hands the swapped-out map to the callback.  (iii) End to end on a
flat watched record: every recorded original value is the pre-batch
value, a path with no record still holds its pre-batch value, and the
drain invokes the observer callback exactly once with the accumulated
map when anything changed — never otherwise. -/
theorem C2_single_delivery_with_first_write_wins :
    (∀ (s : Nat) (evs : List Event) (p : String),
        lookupStr p ((intakeAll ⟨s, []⟩ [] evs).1.oldVals)
          = ((evs.find? (fun e => e.path == p)).map (fun e => e.oldVal)))
    ∧ (∀ c : ChangeCollector, c.deliver = (c.oldVals, { c with oldVals := [] }))
    ∧ (∀ (init sets : List (String × JSVal)) (i s : Nat),
        (∀ pv ∈ init, isLeaf pv.2 = true) →
        (∀ pv ∈ sets, isLeaf pv.2 = true) →
        ∀ r, r = runSets (installObj (.external i) (.obj init)) ⟨s, []⟩ [] sets →
          (∀ p x, lookupStr p r.2.1.oldVals = some x → lookupStr p init = some x)
          ∧ (∀ p, lookupStr p r.2.1.oldVals = none →
              lookupStr p (propsValue r.1.props) = lookupStr p init)
          ∧ r.2.1.seq = s
          ∧ deliverAllByTimeout effNone 2 r.2.2
              = (if r.2.1.oldVals = [] then [] else [(s, r.2.1.oldVals)])) := by
  refine ⟨?_, fun c => rfl, ?_⟩
  · intro s evs p
    rw [intakeAll_fst]
    exact cIntake_none_find evs ⟨s, []⟩ p rfl
  · intro init sets i s hinit hsets r hr
    have hinst : installObj (.external i) (.obj init)
        = .mk (.external i) [.external i] (primProps init) := by
      show WObj.mk (.external i) [.external i] (installProps (.external i) init)
          = WObj.mk (.external i) [.external i] (primProps init)
      rw [installProps_flat (.external i) init hinit]
    obtain ⟨cur2, c2, heq, hseq, hleaf, hsome, hnone⟩ :=
      runSets_flat_inv sets init init (.external i) i ⟨s, []⟩ []
        hinit hsets (fun p x h => by simp [lookupStr] at h)
        (fun p _ => rfl) (by simp)
    rw [hr, hinst, heq]
    dsimp only
    refine ⟨hsome, ?_, hseq, ?_⟩
    · intro p h
      have hp : (WObj.mk (Listener.external i) [Listener.external i]
          (primProps cur2)).props = primProps cur2 := rfl
      rw [hp, propsValue_primProps]
      exact hnone p h
    · by_cases h2 : c2.oldVals = []
      · have hd : deliverAllByTimeout effNone 2 ([] : List ChangeCollector) = [] := rfl
        simp [h2, hd]
      · rw [if_neg h2, if_neg h2, drain_single c2, hseq]

/-- C2 witness: `{x: 1, y: 10}` mutated by `x = 2; x = 3; y = 10` yields
one delivery carrying `{x: 1}` (first-write-wins; the no-op write to `y`
records nothing). -/
theorem C2_single_delivery_with_first_write_wins_witness :
    ((∀ pv ∈ ([("x", JSVal.num (.int 1)), ("y", .num (.int 10))] :
        List (String × JSVal)), isLeaf pv.2 = true)
      ∧ (∀ pv ∈ ([("x", JSVal.num (.int 2)), ("x", .num (.int 3)),
          ("y", .num (.int 10))] : List (String × JSVal)), isLeaf pv.2 = true))
    ∧ deliverAllByTimeout effNone 2
        (runSets (installObj (.external 0)
            (.obj [("x", .num (.int 1)), ("y", .num (.int 10))]))
          ⟨0, []⟩ []
          [("x", .num (.int 2)), ("x", .num (.int 3)), ("y", .num (.int 10))]).2.2
        = [(0, [("x", .num (.int 1))])] := by
  refine ⟨⟨by decide, by decide⟩, ?_⟩
  have h := (C2_single_delivery_with_first_write_wins.2.2
    [("x", JSVal.num (.int 1)), ("y", .num (.int 10))]
    [("x", JSVal.num (.int 2)), ("x", .num (.int 3)), ("y", .num (.int 10))]
    0 0 (by decide) (by decide) _ rfl).2.2.2
  rw [h]
  decide
